import Mathlib

/- Verification development for a Korean question-answering pipeline:
   a configuration-driven entry point (main.py), a configuration schema
   (src/arguments.py), feature preparation for extractive and
   sequence-to-sequence QA (src/magic_box/preprocess.py), and a BM25-based
   sparse passage retriever (src/retrieval/bm25_retrieval_base.py).

   The tokenizer, the BM25 ranking library and the dataset loader are
   external interfaces; their outputs (token ids, offset mappings, sequence
   ids, relevance scores) appear here as inputs of the modelled functions.
   Machine floats of the ranking library are modelled as rationals: none of
   the verified properties depends on float rounding.

   Python list indexing that would raise IndexError, list.index that would
   raise ValueError, and loops that would walk past index 0 into the Python
   negative-index regime are all modelled as the absent value (none): every
   verified property either avoids those inputs or quantifies over the
   in-model domain. -/

namespace QAPipeline

/-! Generic models of the Python scanning loops used by preprocess.py. -/

/-- Model of Python list.index and of forward while-loops of the shape
    `i = start; while not p(l[i]): i += 1`, returning the first index at or
    after the start counter whose element satisfies p; none models the
    IndexError / ValueError raised when the scan runs off the end. -/
def pyFindIdxAux {α : Type} (p : α → Bool) : List α → Nat → Option Nat
  | [], _ => none
  | x :: rest, i => if p x then some i else pyFindIdxAux p rest (i + 1)

/-- Python list.index / forward scan from index 0. -/
def pyFindIdx {α : Type} (p : α → Bool) (l : List α) : Option Nat :=
  pyFindIdxAux p l 0

/-- Model of backward while-loops of the shape
    `while not p(l[i]): i -= 1`, returning the largest index at or below
    the start index whose element satisfies p. Where Python would continue
    below index 0 (wrapping into negative indices and eventually raising
    IndexError), or index outside the list, the model returns none. -/
def scanBack {α : Type} (p : α → Bool) (l : List α) : Nat → Option Nat
  | 0 =>
    match l.get? 0 with
    | none => none
    | some v => if p v then some 0 else none
  | i + 1 =>
    match l.get? (i + 1) with
    | none => none
    | some v => if p v then some (i + 1) else scanBack p l i

/-- Fuel-indexed model of the loop
    `while token_start_index < len(offsets) and
       offsets[token_start_index][0] <= start_char: token_start_index += 1`.
    The fuel only makes the recursion structural; advanceStart below
    supplies enough fuel that the result agrees with the loop. -/
def advanceStartAux (offsets : List (Nat × Nat)) (c : Nat) : Nat → Nat → Nat
  | 0, i => i
  | fuel + 1, i =>
    match offsets.get? i with
    | none => i
    | some o => if o.1 ≤ c then advanceStartAux offsets c fuel (i + 1) else i

/-- The final value of token_start_index after the advancing loop of
    prepare_train_features, started at index i. -/
def advanceStart (offsets : List (Nat × Nat)) (c : Nat) (i : Nat) : Nat :=
  advanceStartAux offsets c (offsets.length - i) i

/-! Model of src/magic_box/preprocess.py. -/

/-- The answers structure of one QA example: a list of answer character
    start offsets and the list of answer texts (both empty when the example
    is unanswerable). -/
structure QAAnswers where
  answer_start : List Nat
  text : List String
deriving DecidableEq

/-- Body of the labelling loop of prepare_train_features (encoder variant,
    preprocess.py lines 35-83), for one produced feature. The tokenizer
    outputs for the feature (input token ids, char offset mapping, sequence
    ids) are inputs, since the tokenizer is an external interface. Returns
    the (start_positions, end_positions) labels appended for the feature,
    or none where Python would raise (cls token absent from input_ids, a
    scan running off the list, or an answer list whose text list is
    shorter). -/
def labelFeature (cls_token_id : Nat) (padOnRight : Bool) (input_ids : List Nat)
    (offsets : List (Nat × Nat)) (sequence_ids : List (Option Nat))
    (answers : QAAnswers) : Option (Int × Int) := do
  let cls_index ← pyFindIdx (· == cls_token_id) input_ids
  if answers.answer_start.isEmpty then
    pure ((cls_index : Int), (cls_index : Int))
  else do
    let start_char ← answers.answer_start.get? 0
    let t0 ← answers.text.get? 0
    let end_char := start_char + t0.length
    let ctxSeg : Option Nat := some (if padOnRight then 1 else 0)
    let token_start_index ← pyFindIdx (· == ctxSeg) sequence_ids
    let token_end_index ← scanBack (· == ctxSeg) sequence_ids (input_ids.length - 1)
    let ots ← offsets.get? token_start_index
    if ots.1 ≤ start_char then do
      let ote ← offsets.get? token_end_index
      if end_char ≤ ote.2 then do
        let s := advanceStart offsets start_char token_start_index
        let e ← scanBack (fun o => decide (o.2 < end_char)) offsets token_end_index
        pure ((s : Int) - 1, (e : Int) + 1)
      else
        pure ((cls_index : Int), (cls_index : Int))
    else
      pure ((cls_index : Int), (cls_index : Int))

/-- One tokenized feature of the encoder variant, as produced by the
    external tokenizer. -/
structure EncFeature where
  input_ids : List Nat
  offsets : List (Nat × Nat)
  sequence_ids : List (Option Nat)

/-- The batch loop of prepare_train_features: for every produced feature,
    look up the originating example through the overflow-to-sample mapping
    and label the feature. -/
def prepare_train_features (cls_token_id : Nat) (padOnRight : Bool)
    (features : List EncFeature) (sample_mapping : List Nat)
    (answersOfExample : List QAAnswers) : Option (List (Int × Int)) :=
  (List.range features.length).mapM (fun i => do
    let f ← features.get? i
    let si ← sample_mapping.get? i
    let ans ← answersOfExample.get? si
    labelFeature cls_token_id padOnRight f.input_ids f.offsets f.sequence_ids ans)

/-- Body of the labelling loop of prepare_train_features_with_setting_for_T5
    (preprocess.py lines 183-237), for one produced feature. The fallback
    label is the eos token id itself (not a position). additional_token_length
    is the token length of the tokenized question-only prefix minus its last
    token, additional_text_length the character length of the prefix string;
    both come from the external tokenizer and are inputs here. -/
def labelFeatureT5 (eos_token_id pad_token_id : Nat) (input_ids : List Nat)
    (offsets : List (Nat × Nat))
    (additional_token_length additional_text_length : Nat)
    (answers : QAAnswers) : Option (Int × Int) :=
  let cls_index := eos_token_id
  if answers.answer_start.isEmpty then
    pure ((cls_index : Int), (cls_index : Int))
  else do
    let a0 ← answers.answer_start.get? 0
    let t0 ← answers.text.get? 0
    let start_char := a0 + additional_text_length
    let end_char := start_char + t0.length + 1
    let token_start_index := additional_token_length
    let token_end_index ← scanBack
      (fun v => decide (v ≠ pad_token_id ∧ v ≠ eos_token_id)) input_ids
      (input_ids.length - 1)
    let ots ← offsets.get? token_start_index
    if ots.1 ≤ start_char then do
      let ote ← offsets.get? token_end_index
      if end_char ≤ ote.2 then do
        let s := advanceStart offsets start_char token_start_index
        let e ← scanBack (fun o => decide (o.2 < end_char)) offsets token_end_index
        pure ((s : Int) - 1, (e : Int) + 1)
      else
        pure ((cls_index : Int), (cls_index : Int))
    else
      pure ((cls_index : Int), (cls_index : Int))

/-! Model of src/retrieval/bm25_retrieval_base.py. -/

/-- Python exception kinds raised by the modelled retrieval code. -/
inductive PyError where
  | assertionError
  | typeError
  | indexError
deriving DecidableEq

/-- A dynamically typed Python value, needed because retrieve feeds the
    passage-text list returned by get_relevant_doc into positions where its
    own code expects integer passage ids. -/
inductive PyVal where
  | intv (n : Int)
  | strv (s : String)
deriving DecidableEq

/-- Python subscript contexts[v] on a list of strings: integer subscripts
    follow the Python negative-index rule, any other value raises
    TypeError. -/
def pyGetItem (xs : List String) (v : PyVal) : Except PyError String :=
  match v with
  | .strv _ => .error .typeError
  | .intv n =>
    let m : Int := if n < 0 then n + xs.length else n
    if h : 0 ≤ m ∧ m.toNat < xs.length then .ok (xs.get ⟨m.toNat, h.2⟩)
    else .error .indexError

/-- Python subscript xs[i] for a loop counter i produced by range (never
    negative). -/
def pyIdx {α : Type} (xs : List α) (i : Nat) : Except PyError α :=
  match xs.get? i with
  | some v => .ok v
  | none => .error .indexError

/-- Python " ".join(vs): joins string values with one space, raises
    TypeError on any non-string element. -/
def pyJoinSpace (vs : List PyVal) : Except PyError String := do
  let strs ← vs.mapM (fun v =>
    match v with
    | .strv s => Except.ok s
    | .intv _ => Except.error PyError.typeError)
  pure (String.intercalate " " strs)

/-- The corpus JSON object: Python reads wiki.values() in insertion order
    and keeps only the text field of each value, so the corpus file is
    modelled as the list of its text fields in that order. -/
structure WikiDoc where
  text : String

/-- Model of list(dict.fromkeys(texts)): left fold that appends a text the
    first time it is seen and skips every later occurrence. -/
def dictFromKeys (xs : List String) : List String :=
  xs.foldl (fun acc x => if x ∈ acc then acc else acc ++ [x]) []

/-- Modelled from the spec wording, for refinement only: the deduplicated
    corpus keeps each distinct text exactly once, in first-seen order. -/
def specFirstSeenDedup : List String → List String
  | [] => []
  | x :: rest => x :: specFirstSeenDedup (rest.filter (fun y => y ≠ x))
termination_by l => l.length
decreasing_by
  simp only [List.length_cons]
  exact Nat.lt_succ_of_le (rest.length_filter_le _)

/-- The sparse retrieval engine state after __init__: the deduplicated
    passage list, the sequential ids, the injected tokenizing function and
    the (initially unset) BM25 index. The index is modelled by its
    get_scores behaviour: one relevance score per corpus passage for a
    tokenized query. -/
structure BM25SparseRetrieval where
  contexts : List String
  ids : List Nat
  tokenize_fn : String → List String
  bm25 : Option (List String → List ℚ)

/-- Constructor of BM25SparseRetrieval: dedupe the corpus texts keeping
    first-seen order, assign sequential ids, leave the index unset. -/
def initEngine (tokenize_fn : String → List String) (wiki : List WikiDoc) :
    BM25SparseRetrieval :=
  let contexts := dictFromKeys (wiki.map (·.text))
  { contexts := contexts
    ids := List.range contexts.length
    tokenize_fn := tokenize_fn
    bm25 := none }

/-- Stable ascending argsort by insertion, standing in for np.argsort. The
    numpy tie order is unspecified (quicksort); no verified property below
    depends on the tie order and all concrete corpora used have distinct
    scores. -/
def insertIdxBy (key : Nat → ℚ) (i : Nat) : List Nat → List Nat
  | [] => [i]
  | j :: rest => if key i < key j then i :: j :: rest else j :: insertIdxBy key i rest

/-- Ascending argsort of a score list. -/
def argsortAsc (xs : List ℚ) : List Nat :=
  (List.range xs.length).foldr (insertIdxBy (fun i => xs.getD i 0)) []

/-- Model of rank_bm25 BM25Okapi.get_top_n (external library, from its own
    source): score every document, take the n best by descending score,
    return their texts. The assert of the library that the document list
    matches the index corpus size is not modelled; the engine always passes
    the corpus the index was built from. -/
def get_top_n (getScores : List String → List ℚ) (tokenized_query : List String)
    (documents : List String) (n : Nat) : List String :=
  let scores := getScores tokenized_query
  (((argsortAsc scores).reverse).take n).map (fun i => documents.getD i "")

/-- BM25SparseRetrieval.get_relevant_doc (lines 108-127): tokenize the
    query, sort scores descending, and return the top-k scores together
    with the top-n passage TEXTS obtained from the separate get_top_n
    library call; the second component is a list of strings even though the
    callers name it doc_indices. -/
def get_relevant_doc (R : BM25SparseRetrieval) (api : List String → List ℚ)
    (query : String) (k : Nat) : List ℚ × List PyVal :=
  let tokenized_query := R.tokenize_fn query
  let raw := api tokenized_query
  let descIdx := argsortAsc (raw.map (fun q => -q))
  let doc_scores := descIdx.map (fun i => raw.getD i 0)
  let doc_list := get_top_n api tokenized_query R.contexts k
  (doc_scores.take k, doc_list.map PyVal.strv)

/-- One QA example row of a labelled dataset; context and answers columns
    are present only for validation-style datasets. -/
structure QAExample where
  question : String
  id : String
  context : Option String
  answers : Option QAAnswers
deriving DecidableEq

/-- One row of the DataFrame assembled by the batch branch of retrieve. -/
structure RetrievalRecord where
  question : String
  id : String
  context_id : List PyVal
  context : String
  original_context : Option String
  answers : Option QAAnswers
deriving DecidableEq

/-- The argument of retrieve: Python accepts any object and tests
    isinstance(str) then isinstance(Dataset); anything else falls through
    both branches. -/
inductive RetrieveInput where
  | query (q : String)
  | dataset (ds : List QAExample)
  | other

/-- The two shapes of value retrieve can return. -/
inductive RetrieveOutput where
  | pair (scores : List ℚ) (texts : List String)
  | table (rows : List RetrievalRecord)
deriving DecidableEq

/-- BM25SparseRetrieval.retrieve (lines 62-106). The assert on the unset
    index raises AssertionError. The single-query branch runs the printing
    loop, whose access self.contexts[doc_indices[i]] subscripts the context
    list with a passage text. The batch branch assembles one record per
    example, storing doc_indices[idx] (the text list) as context_id and the
    space-join of it as context. An argument of any other type falls
    through both isinstance branches and the function returns None. The
    single-branch model folds the printing loop and the result list
    comprehension into one pass; both perform the same subscript accesses
    in the same order, so the error behaviour and the returned value agree
    with the source. -/
def retrieve (R : BM25SparseRetrieval) (input : RetrieveInput) (topk : Nat) :
    Except PyError (Option RetrieveOutput) :=
  match R.bm25 with
  | none => .error .assertionError
  | some api =>
    match input with
    | .query q =>
      let sd := get_relevant_doc R api q topk
      do
        let texts ← (List.range topk).mapM (fun i => do
          let _ ← pyIdx sd.1 i
          let v ← pyIdx sd.2 i
          pyGetItem R.contexts v)
        pure (some (.pair sd.1 texts))
    | .dataset ds =>
      let results := ds.map (fun ex => get_relevant_doc R api ex.question topk)
      do
        let rows ← (ds.zip results).mapM (fun p => do
          let joined ← pyJoinSpace p.2.2
          pure { question := p.1.question
                 id := p.1.id
                 context_id := p.2.2
                 context := joined
                 original_context :=
                   if p.1.context.isSome && p.1.answers.isSome then p.1.context else none
                 answers :=
                   if p.1.context.isSome && p.1.answers.isSome then p.1.answers
                   else none : RetrievalRecord })
        pure (some (.table rows))
    | .other => pure none

/-- A concrete two-passage engine with a built index, used to evaluate the
    retrieval claims: passage 0 scores 2, passage 1 scores 1 for every
    query. -/
def demoEngine : BM25SparseRetrieval :=
  { contexts := ["aaa", "bbb"]
    ids := [0, 1]
    tokenize_fn := fun s => [s]
    bm25 := some (fun _ => [(2 : ℚ), 1]) }

/-- A concrete labelled validation-style dataset with one example. -/
def demoDataset : List QAExample :=
  [{ question := "q", id := "e1", context := some "aaa",
     answers := some { answer_start := [0], text := ["a"] } }]

/-- Concrete tokenizer outputs of one encoder feature, used as a witness:
    a classifier token, one question token, a separator, four context
    tokens covering the context "The quick brown fox" at character spans
    (0,3) (4,9) (10,15) (16,19), and a final separator. -/
def demoInputIds : List Nat := [101, 7, 102, 11, 12, 13, 14, 102]

/-- The char offset mapping of the demo feature; special and question
    tokens carry the usual placeholder offsets. -/
def demoOffsets : List (Nat × Nat) :=
  [(0,0),(0,4),(0,0),(0,3),(4,9),(10,15),(16,19),(0,0)]

/-- The sequence ids of the demo feature: none for special tokens, 0 for
    the question segment, 1 for the context segment. -/
def demoSeqIds : List (Option Nat) :=
  [none, some 0, none, some 1, some 1, some 1, some 1, none]

/-! Model of main.py (entry point / mode dispatcher). -/

/-- The routines a mode can dispatch to. retrieval_train only prints a
    placeholder message; the constructor records that this print branch was
    taken. -/
inductive Routine where
  | train
  | hp_optimizing
  | retrieval_train_stub
  | inference
deriving DecidableEq

/-- The wandb group of the loaded configuration. -/
structure WandbGroup where
  entity : String
  project : String
deriving DecidableEq

/-- The parts of the loaded configuration that inner_main reads: the mode
    string, the project name printed in the banner, and the wandb group. -/
structure ConfigTop where
  mode : String
  projectName : String
  wandb : WandbGroup
deriving DecidableEq

/-- The observable effects of one inner_main run: the printed banner, the
    two environment variables set, and which routine (if any) was
    invoked. -/
structure DispatchResult where
  banner : String
  wandbEntity : String
  wandbProject : String
  invoked : Option Routine
deriving DecidableEq

/-- inner_main of main.py (lines 16-28): print the banner, set the two
    wandb environment variables, then route on cfg.mode through an
    if/elif chain that has no else branch. The Except wrapper is the
    Python exception channel; the body raises nothing, so every run
    returns ok. -/
def inner_main (cfg : ConfigTop) : Except String DispatchResult :=
  .ok
    { banner := "Start " ++ cfg.projectName ++ " !"
      wandbEntity := cfg.wandb.entity
      wandbProject := cfg.wandb.project
      invoked :=
        if cfg.mode = "model_train" then some .train
        else if cfg.mode = "hyperparameter_tune" then some .hp_optimizing
        else if cfg.mode = "retrieval_train" then some .retrieval_train_stub
        else if cfg.mode = "inference" then some .inference
        else none }

/-! Model of src/arguments.py (configuration schema). The five dataclasses
    are modelled by the list of their annotated class attributes as Python
    evaluates them, together with the dataclass default-extraction rule: a
    dataclasses.field object contributes its declared default (none when
    the field has no default), any other attribute value is itself the
    default. -/

/-- A Python value appearing as a dataclass class attribute. pyFieldSpec is
    a dataclasses.field(...) object carrying its declared default (none for
    a field declared without one); metadata help strings are omitted. -/
inductive PyObj where
  | pyNone
  | pyInt (n : Int)
  | pyStr (s : String)
  | pyBool (b : Bool)
  | pyTuple (xs : List PyObj)
  | pyFieldSpec (d : Option PyObj)

/-- The dataclass default of one annotated class attribute: a field object
    contributes its declared default, any other value is used verbatim as
    the default. -/
def dataclassDefault : PyObj → Option PyObj
  | .pyFieldSpec d => d
  | v => some v

/-- Name/default pairs of a dataclass after default extraction. -/
def dataclassDefaults (fields : List (String × PyObj)) :
    List (String × Option PyObj) :=
  fields.map (fun p => (p.1, dataclassDefault p.2))

/-- Calling the generated constructor with no arguments: succeeds with the
    defaults when every field has one, raises TypeError (missing required
    argument) otherwise. -/
def pyConstructNoArgs (fields : List (String × PyObj)) :
    Except PyError (List (String × PyObj)) :=
  fields.mapM (fun p =>
    match dataclassDefault p.2 with
    | some v => Except.ok (p.1, v)
    | none => Except.error PyError.typeError)

/-- ProjectArguments (arguments.py lines 4-9): base_path and name, the
    latter declared with default=None. -/
def projectArgumentsFields : List (String × PyObj) :=
  [("base_path", .pyFieldSpec (some (.pyStr "/opt/ml/code/models"))),
   ("name", .pyFieldSpec (some .pyNone))]

/-- ModelArguments (lines 12-23). -/
def modelArgumentsFields : List (String × PyObj) :=
  [("name_or_path", .pyFieldSpec (some (.pyStr "klue/bert-base")))]

/-- DataArguments (lines 26-43). -/
def dataArgumentsFields : List (String × PyObj) :=
  [("dataset_path", .pyFieldSpec (some (.pyStr "/opt/ml/data/train_dataset"))),
   ("max_length", .pyFieldSpec (some (.pyInt 512))),
   ("stride", .pyFieldSpec (some (.pyInt 128))),
   ("max_answer_length", .pyFieldSpec (some (.pyInt 32)))]

/-- EarlyStoppingArguments (lines 46-59). -/
def earlyStoppingArgumentsFields : List (String × PyObj) :=
  [("setting", .pyFieldSpec (some (.pyBool false))),
   ("patience", .pyFieldSpec (some (.pyInt 5)))]

/-- InferenceArguments (lines 62-73). The topk attribute is written
    `topk: int = (field(default=5, ...),)` in the source: the trailing
    comma makes the class attribute a 1-tuple containing the field object,
    so the dataclass machinery sees a plain (non-field) default value. -/
def inferenceArgumentsFields : List (String × PyObj) :=
  [("topk", .pyTuple [.pyFieldSpec (some (.pyInt 5))]),
   ("output_dir", .pyFieldSpec (some (.pyStr "/opt/ml/code/outputs/sample")))]

/-! Helper lemmas about the loop models. -/

theorem pyFindIdxAux_lt_length {α : Type} {p : α → Bool} {l : List α} :
    ∀ {i j : Nat}, pyFindIdxAux p l i = some j → j < i + l.length := by
  induction l with
  | nil => intro i j h; simp [pyFindIdxAux] at h
  | cons x rest ih =>
    intro i j h
    simp only [pyFindIdxAux] at h
    by_cases hp : p x
    · simp [hp] at h
      simp only [List.length_cons]
      omega
    · simp [hp] at h
      have := ih h
      simp only [List.length_cons]
      omega

theorem pyFindIdx_lt_length {α : Type} {p : α → Bool} {l : List α} {j : Nat}
    (h : pyFindIdx p l = some j) : j < l.length := by
  have := pyFindIdxAux_lt_length h
  omega

theorem scanBack_le {α : Type} {p : α → Bool} {l : List α} :
    ∀ {i j : Nat}, scanBack p l i = some j → j ≤ i := by
  intro i
  induction i with
  | zero =>
    intro j h
    simp only [scanBack] at h
    cases hg : l.get? 0 with
    | none => rw [hg] at h; simp at h
    | some v =>
      rw [hg] at h
      by_cases hp : p v
      · simp [hp] at h; omega
      · simp [hp] at h
  | succ i ih =>
    intro j h
    simp only [scanBack] at h
    cases hg : l.get? (i + 1) with
    | none => rw [hg] at h; simp at h
    | some v =>
      rw [hg] at h
      by_cases hp : p v
      · simp [hp] at h; omega
      · simp [hp] at h
        exact Nat.le_succ_of_le (ih h)

theorem scanBack_prop {α : Type} {p : α → Bool} {l : List α} :
    ∀ {i j : Nat}, scanBack p l i = some j →
      ∃ v, l.get? j = some v ∧ p v = true := by
  intro i
  induction i with
  | zero =>
    intro j h
    simp only [scanBack] at h
    cases hg : l.get? 0 with
    | none => rw [hg] at h; simp at h
    | some v =>
      rw [hg] at h
      by_cases hp : p v
      · simp [hp] at h
        exact ⟨v, by rw [← h]; exact hg, hp⟩
      · simp [hp] at h
  | succ i ih =>
    intro j h
    simp only [scanBack] at h
    cases hg : l.get? (i + 1) with
    | none => rw [hg] at h; simp at h
    | some v =>
      rw [hg] at h
      by_cases hp : p v
      · simp [hp] at h
        exact ⟨v, by rw [← h]; exact hg, hp⟩
      · simp [hp] at h
        exact ih h

theorem scanBack_after {α : Type} {p : α → Bool} {l : List α} :
    ∀ {i j : Nat}, scanBack p l i = some j →
      ∀ k, j < k → k ≤ i → ∀ v, l.get? k = some v → p v = false := by
  intro i
  induction i with
  | zero =>
    intro j h k hjk hk
    have hj := scanBack_le h
    omega
  | succ i ih =>
    intro j h k hjk hk v hv
    simp only [scanBack] at h
    cases hg : l.get? (i + 1) with
    | none => rw [hg] at h; simp at h
    | some w =>
      rw [hg] at h
      by_cases hp : p w
      · simp [hp] at h
        omega
      · simp [hp] at h
        rcases Nat.lt_or_ge k (i + 1) with hk1 | hk1
        · exact ih h k hjk (by omega) v hv
        · have : k = i + 1 := by omega
          subst this
          rw [hv] at hg
          cases hg
          simpa using hp

theorem advanceStartAux_ge (offsets : List (Nat × Nat)) (c : Nat) :
    ∀ (fuel i : Nat), i ≤ advanceStartAux offsets c fuel i := by
  intro fuel
  induction fuel with
  | zero => intro i; simp [advanceStartAux]
  | succ fuel ih =>
    intro i
    simp only [advanceStartAux]
    cases hg : offsets.get? i with
    | none => exact Nat.le_refl i
    | some o =>
      by_cases hc : o.1 ≤ c
      · simp only [hc, if_true]
        exact Nat.le_of_succ_le (ih (i + 1))
      · simp [hc]

theorem advanceStartAux_le_length (offsets : List (Nat × Nat)) (c : Nat) :
    ∀ (fuel i : Nat), i ≤ offsets.length →
      advanceStartAux offsets c fuel i ≤ offsets.length := by
  intro fuel
  induction fuel with
  | zero => intro i hi; simpa [advanceStartAux] using hi
  | succ fuel ih =>
    intro i hi
    simp only [advanceStartAux]
    cases hg : offsets.get? i with
    | none => exact hi
    | some o =>
      have hlt : i < offsets.length := List.get?_eq_some.mp hg |>.1
      by_cases hc : o.1 ≤ c
      · simp only [hc, if_true]
        exact ih (i + 1) hlt
      · simp [hc, hi]

theorem advanceStartAux_scanned (offsets : List (Nat × Nat)) (c : Nat) :
    ∀ (fuel i : Nat), ∀ j, i ≤ j → j < advanceStartAux offsets c fuel i →
      ∀ oj, offsets.get? j = some oj → oj.1 ≤ c := by
  intro fuel
  induction fuel with
  | zero => intro i j hij hj; simp [advanceStartAux] at hj; omega
  | succ fuel ih =>
    intro i j hij hj oj hoj
    cases hg : offsets.get? i with
    | none =>
      simp only [advanceStartAux, hg] at hj
      omega
    | some o =>
      by_cases hc : o.1 ≤ c
      · simp only [advanceStartAux, hg, hc, if_true] at hj
        rcases Nat.lt_or_ge i j with hij1 | hij1
        · exact ih (i + 1) j hij1 hj oj hoj
        · have : j = i := by omega
          subst this
          rw [hoj] at hg
          cases hg
          exact hc
      · simp only [advanceStartAux, hg, hc, if_false] at hj
        omega

theorem advanceStartAux_stop (offsets : List (Nat × Nat)) (c : Nat) :
    ∀ (fuel i : Nat), offsets.length ≤ i + fuel →
      ∀ o, offsets.get? (advanceStartAux offsets c fuel i) = some o → c < o.1 := by
  intro fuel
  induction fuel with
  | zero =>
    intro i hfuel o ho
    simp only [advanceStartAux] at ho
    have : i < offsets.length := List.get?_eq_some.mp ho |>.1
    omega
  | succ fuel ih =>
    intro i hfuel o ho
    cases hg : offsets.get? i with
    | none =>
      simp only [advanceStartAux, hg] at ho
      exact Option.noConfusion ho
    | some w =>
      by_cases hc : w.1 ≤ c
      · simp only [advanceStartAux, hg, hc, if_true] at ho
        exact ih (i + 1) (by omega) o ho
      · simp only [advanceStartAux, hg, hc, if_false] at ho
        cases ho
        omega

theorem advanceStartAux_le_exceed (offsets : List (Nat × Nat)) (c : Nat) :
    ∀ (fuel i : Nat), ∀ j oj, i ≤ j → offsets.get? j = some oj → c < oj.1 →
      advanceStartAux offsets c fuel i ≤ j := by
  intro fuel
  induction fuel with
  | zero => intro i j oj hij _ _; simpa [advanceStartAux] using hij
  | succ fuel ih =>
    intro i j oj hij hoj hc
    simp only [advanceStartAux]
    cases hg : offsets.get? i with
    | none => exact hij
    | some w =>
      by_cases hw : w.1 ≤ c
      · simp only [hw, if_true]
        rcases Nat.lt_or_ge i j with hij1 | hij1
        · exact ih (i + 1) j oj hij1 hoj hc
        · have : j = i := by omega
          subst this
          rw [hoj] at hg
          cases hg
          omega
      · simp [hw, hij]

theorem advanceStart_ge (offsets : List (Nat × Nat)) (c i : Nat) :
    i ≤ advanceStart offsets c i :=
  advanceStartAux_ge offsets c _ i

theorem advanceStart_le_length (offsets : List (Nat × Nat)) (c : Nat) {i : Nat}
    (hi : i ≤ offsets.length) : advanceStart offsets c i ≤ offsets.length :=
  advanceStartAux_le_length offsets c _ i hi

theorem advanceStart_scanned (offsets : List (Nat × Nat)) (c : Nat) {i j : Nat}
    (hij : i ≤ j) (hj : j < advanceStart offsets c i) {oj : Nat × Nat}
    (hoj : offsets.get? j = some oj) : oj.1 ≤ c :=
  advanceStartAux_scanned offsets c _ i j hij hj oj hoj

theorem advanceStart_stop (offsets : List (Nat × Nat)) (c : Nat) {i : Nat}
    {o : Nat × Nat} (ho : offsets.get? (advanceStart offsets c i) = some o) :
    c < o.1 :=
  advanceStartAux_stop offsets c _ i (by omega) o ho

theorem advanceStart_progress (offsets : List (Nat × Nat)) (c : Nat) {i : Nat}
    {o : Nat × Nat} (ho : offsets.get? i = some o) (hc : o.1 ≤ c) :
    i + 1 ≤ advanceStart offsets c i := by
  have hi : i < offsets.length := List.get?_eq_some.mp ho |>.1
  unfold advanceStart
  have hfuel : offsets.length - i = (offsets.length - i - 1) + 1 := by omega
  rw [hfuel]
  simp only [advanceStartAux, ho, hc, if_true]
  exact advanceStartAux_ge offsets c _ (i + 1)

theorem advanceStart_le_exceed (offsets : List (Nat × Nat)) (c : Nat)
    {i j : Nat} {oj : Nat × Nat} (hij : i ≤ j) (hoj : offsets.get? j = some oj)
    (hc : c < oj.1) : advanceStart offsets c i ≤ j :=
  advanceStartAux_le_exceed offsets c _ i j oj hij hoj hc

theorem mem_specFirstSeenDedup : ∀ (xs : List String) (t : String),
    t ∈ specFirstSeenDedup xs ↔ t ∈ xs := by
  intro xs
  induction xs using specFirstSeenDedup.induct with
  | case1 => simp [specFirstSeenDedup]
  | case2 x rest ih =>
    intro t
    simp only [specFirstSeenDedup, List.mem_cons, ih]
    constructor
    · rintro (rfl | h)
      · exact .inl rfl
      · simp only [List.mem_filter, decide_eq_true_eq] at h
        exact .inr h.1
    · rintro (rfl | h)
      · exact .inl rfl
      · by_cases hx : t = x
        · exact .inl hx
        · refine .inr ?_
          simp only [List.mem_filter, decide_eq_true_eq]
          exact ⟨h, hx⟩

theorem specFirstSeenDedup_nodup : ∀ (xs : List String),
    (specFirstSeenDedup xs).Nodup := by
  intro xs
  induction xs using specFirstSeenDedup.induct with
  | case1 => simp [specFirstSeenDedup]
  | case2 x rest ih =>
    simp only [specFirstSeenDedup, List.nodup_cons]
    refine ⟨?_, ih⟩
    intro hmem
    rw [mem_specFirstSeenDedup] at hmem
    simp only [List.mem_filter, decide_eq_true_eq] at hmem
    exact hmem.2 rfl

theorem dictFromKeys_go : ∀ (xs acc : List String),
    xs.foldl (fun acc x => if x ∈ acc then acc else acc ++ [x]) acc
      = acc ++ specFirstSeenDedup (xs.filter (fun y => decide (y ∉ acc))) := by
  intro xs
  induction xs with
  | nil => intro acc; simp [specFirstSeenDedup]
  | cons a rest ih =>
    intro acc
    simp only [List.foldl_cons]
    by_cases h : a ∈ acc
    · rw [if_pos h, ih]
      have hfil : (a :: rest).filter (fun y => decide (y ∉ acc))
          = rest.filter (fun y => decide (y ∉ acc)) := by
        simp [List.filter_cons, h]
      rw [hfil]
    · rw [if_neg h, ih]
      have hfil : (a :: rest).filter (fun y => decide (y ∉ acc))
          = a :: rest.filter (fun y => decide (y ∉ acc)) := by
        simp [List.filter_cons, h]
      rw [hfil]
      simp only [specFirstSeenDedup]
      rw [List.append_assoc, List.singleton_append]
      have hpred : (rest.filter (fun y => decide (y ∉ acc))).filter
            (fun y => decide (y ≠ a))
          = rest.filter (fun y => decide (y ∉ acc ++ [a])) := by
        rw [List.filter_filter]
        apply List.filter_congr
        intro y _
        by_cases hya : y = a
        · subst hya
          simp [List.mem_append]
        · by_cases hyacc : y ∈ acc
          · simp [List.mem_append, hya, hyacc]
          · simp [List.mem_append, hya, hyacc]
      rw [hpred]

theorem dictFromKeys_eq_spec (xs : List String) :
    dictFromKeys xs = specFirstSeenDedup xs := by
  unfold dictFromKeys
  rw [dictFromKeys_go]
  simp

/-! Claim theorems. -/

/-- C1: the claim states that each batch Retrieval Result Record carries a
    context_id list of integer passage ids in 0..N-1 ordered by descending
    score, and a context field holding the retrieved texts concatenated.
    Evaluating the model at a built two-passage engine and a one-example
    labelled dataset with topk 1 shows the divergence: context_id holds the
    retrieved passage TEXT (the string value strv of passage 0), not an
    integer id, because get_relevant_doc returns the get_top_n text list as
    its second component; the context field does hold the concatenated
    texts, and question, id, original_context and answers are carried
    through. -/
theorem c1_batch_record_evaluation :
    retrieve demoEngine (.dataset demoDataset) 1 =
      .ok (some (.table [⟨"q", "e1", [PyVal.strv "aaa"], "aaa", some "aaa",
        some ⟨[0], ["a"]⟩⟩])) := rfl

/-- C2: the claim states that a single-query retrieve on a built engine
    returns the top-k scores and texts raising no error. Evaluating the
    model at a built engine with topk 1 shows that the call raises
    TypeError instead: the printing loop subscripts the context list with
    doc_indices[0], which is the passage text string returned by
    get_top_n. -/
theorem c2_single_query_type_error :
    retrieve demoEngine (.query "q") 1 = .error .typeError := rfl

/-- C3 counterexample: the claim states that an unrecognized mode makes
    dispatch fail with a configuration error. At the concrete mode
    bogus_mode, inner_main instead terminates normally (the ok
    constructor, never the error one), printing the banner and setting the
    environment variables but invoking no routine: the if/elif chain of
    main.py has no else branch. -/
theorem c3_unrecognized_mode_counterexample :
    inner_main ⟨"bogus_mode", "p", ⟨"e", "w"⟩⟩
      = .ok ⟨"Start p !", "e", "w", none⟩ := rfl

/-- C3 amended: for every configuration whose mode is none of the four
    recognized values, dispatch completes silently: it returns normally
    with no routine invoked and raises no error (the banner is still
    printed and both wandb environment variables are still set). -/
theorem c3_unrecognized_mode_silent (cfg : ConfigTop)
    (h1 : cfg.mode ≠ "model_train") (h2 : cfg.mode ≠ "hyperparameter_tune")
    (h3 : cfg.mode ≠ "retrieval_train") (h4 : cfg.mode ≠ "inference") :
    inner_main cfg = .ok ⟨"Start " ++ cfg.projectName ++ " !",
      cfg.wandb.entity, cfg.wandb.project, none⟩ := by
  unfold inner_main
  simp [h1, h2, h3, h4]

/-- C3 witness: the amended theorem applied at a concrete unrecognized
    mode. -/
theorem c3_unrecognized_mode_silent_witness :
    inner_main ⟨"nonsense", "proj", ⟨"ent", "wp"⟩⟩
      = .ok ⟨"Start proj !", "ent", "wp", none⟩ :=
  c3_unrecognized_mode_silent ⟨"nonsense", "proj", ⟨"ent", "wp"⟩⟩
    (by decide) (by decide) (by decide) (by decide)

/-- C4: the claim states that loading the configuration schema with no
    overrides yields exactly the documented literal defaults, in particular
    integer 5 for Inference.topk. Evaluating the dataclass defaults shows
    that the Data, EarlyStopping and Model groups do carry their literal
    defaults, but the Inference topk default is the 1-tuple containing the
    field object (the trailing comma in `topk: int = (field(default=5,...),)`
    makes the class attribute a tuple, which the dataclass machinery takes
    verbatim as the default), not the integer 5 promised by the annotation
    and the field declaration. -/
theorem c4_defaults_evaluation :
    dataclassDefaults inferenceArgumentsFields
        = [("topk", some (.pyTuple [.pyFieldSpec (some (.pyInt 5))])),
           ("output_dir", some (.pyStr "/opt/ml/code/outputs/sample"))]
    ∧ dataclassDefaults dataArgumentsFields
        = [("dataset_path", some (.pyStr "/opt/ml/data/train_dataset")),
           ("max_length", some (.pyInt 512)),
           ("stride", some (.pyInt 128)),
           ("max_answer_length", some (.pyInt 32))]
    ∧ dataclassDefaults earlyStoppingArgumentsFields
        = [("setting", some (.pyBool false)), ("patience", some (.pyInt 5))]
    ∧ dataclassDefaults modelArgumentsFields
        = [("name_or_path", some (.pyStr "klue/bert-base"))] :=
  ⟨rfl, rfl, rfl, rfl⟩

/-- C5 counterexample: the claim states that the project name field has no
    default and that constructing the configuration without supplying one
    fails. Calling the generated constructor with no arguments instead
    SUCCEEDS (the ok constructor): every ProjectArguments field has a
    default, and name defaults to the Python None value, because the source
    declares it as field(default=None). -/
theorem c5_project_name_counterexample :
    pyConstructNoArgs projectArgumentsFields
      = .ok [("base_path", .pyStr "/opt/ml/code/models"), ("name", .pyNone)] := rfl

/-- C5 amended: the project name field defaults to None, and constructing
    the configuration without supplying a project name succeeds, yielding
    name = None together with the base_path default. -/
theorem c5_project_name_default_none :
    dataclassDefaults projectArgumentsFields
        = [("base_path", some (.pyStr "/opt/ml/code/models")),
           ("name", some .pyNone)]
    ∧ pyConstructNoArgs projectArgumentsFields
        = .ok [("base_path", .pyStr "/opt/ml/code/models"), ("name", .pyNone)] :=
  ⟨rfl, rfl⟩

/-- C6 counterexample: the claim states that when the answer span is fully
    contained in the context token span, the labels tightly bracket the
    answer tokens and decode back to the answer substring. In this feature
    the context is "The quick brown" with context tokens (0,3) (4,9)
    (10,15) at indices 3..5 and the answer "brown" occupies exactly the
    last context token [10,15). The advancing loop walks past that token
    through the trailing special token with offset (0,0) (whose offset
    start 0 is still ≤ 10) to the list end, so the emitted labels are
    (6, 5): the start label 6 exceeds the end label 5, the labelled span is
    empty, and decoding it cannot reproduce "brown" whose token index is
    5. -/
theorem c6_tight_span_counterexample :
    labelFeature 101 true [101, 7, 102, 11, 12, 13, 102]
        [(0,0),(0,4),(0,0),(0,3),(4,9),(10,15),(0,0)]
        [none, some 0, none, some 1, some 1, some 1, none]
        ⟨[10], ["brown"]⟩ = some (6, 5)
    ∧ (5 : Int) < 6 :=
  ⟨by decide, by decide⟩

/-- C6 amended: with the answer span contained in the context token span
    AND some token at or after the context start whose offset start exceeds
    start_char (the answer does not begin in the last token the advancing
    loop can reach), the start label is (the least such index) - 1 and the
    end label is (the greatest index at or below the context end whose
    offset end is below end_char) + 1; every scanned token left of the
    start stop has offset start ≤ start_char, the stop token starts after
    start_char, the end stop token ends before end_char and every token
    after it up to the context end ends at or past end_char, so the label
    pair brackets a token window whose character range [start offset of
    the start label, end offset of the end label) covers the answer span
    [start_char, end_char); decoding therefore yields a substring
    containing the answer text, equal to it exactly when token boundaries
    align with the answer boundaries. -/
theorem c6_tight_span_labeling (cls : Nat) (padOnRight : Bool)
    (input_ids : List Nat) (offsets : List (Nat × Nat))
    (sequence_ids : List (Option Nat)) (cls_index : Nat)
    (a0 : Nat) (as : List Nat) (t0 : String) (ts : List String)
    (tsi tei e : Nat) (ots ote : Nat × Nat)
    (hcls : pyFindIdx (· == cls) input_ids = some cls_index)
    (hts : pyFindIdx (· == some (if padOnRight then 1 else 0)) sequence_ids
      = some tsi)
    (hte : scanBack (· == some (if padOnRight then 1 else 0)) sequence_ids
      (input_ids.length - 1) = some tei)
    (hot : offsets.get? tsi = some ots) (hoe : offsets.get? tei = some ote)
    (hc1 : ots.1 ≤ a0) (hc2 : a0 + t0.length ≤ ote.2)
    (hre : scanBack (fun o => decide (o.2 < a0 + t0.length)) offsets tei
      = some e)
    (hex : ∃ j oj, tsi ≤ j ∧ offsets.get? j = some oj ∧ a0 < oj.1) :
    ∃ s : Nat, labelFeature cls padOnRight input_ids offsets sequence_ids
          ⟨a0 :: as, t0 :: ts⟩ = some ((s : Int) - 1, (e : Int) + 1)
      ∧ tsi < s ∧ s < offsets.length
      ∧ (∀ k ok, tsi ≤ k → k < s → offsets.get? k = some ok → ok.1 ≤ a0)
      ∧ (∀ o, offsets.get? s = some o → a0 < o.1)
      ∧ e < tei
      ∧ (∃ oe, offsets.get? e = some oe ∧ oe.2 < a0 + t0.length)
      ∧ (∀ k ok, e < k → k ≤ tei → offsets.get? k = some ok →
          a0 + t0.length ≤ ok.2)
      ∧ (∃ osl, offsets.get? (s - 1) = some osl ∧ osl.1 ≤ a0)
      ∧ (∃ oel, offsets.get? (e + 1) = some oel ∧ a0 + t0.length ≤ oel.2) := by
  refine ⟨advanceStart offsets a0 tsi, ?_, ?_, ?_, ?_, ?_, ?_, ?_, ?_, ?_, ?_⟩
  · unfold labelFeature
    rw [hcls]
    simp only [List.get?_eq_getElem?] at hot hoe
    simp [hts, hte, hot, hoe, hc1, hc2, hre]
  · exact advanceStart_progress offsets a0 hot hc1
  · obtain ⟨j, oj, hj1, hj2, hj3⟩ := hex
    have hsj := advanceStart_le_exceed offsets a0 hj1 hj2 hj3
    have hjl : j < offsets.length := List.get?_eq_some.mp hj2 |>.1
    omega
  · intro k ok hk1 hk2 hk3
    exact advanceStart_scanned offsets a0 hk1 hk2 hk3
  · intro o ho
    exact advanceStart_stop offsets a0 ho
  · have hle := scanBack_le hre
    rcases Nat.lt_or_ge e tei with h | h
    · exact h
    · have : e = tei := by omega
      subst this
      obtain ⟨v, hv1, hv2⟩ := scanBack_prop hre
      rw [hoe] at hv1
      cases hv1
      simp only [decide_eq_true_eq] at hv2
      omega
  · obtain ⟨v, hv1, hv2⟩ := scanBack_prop hre
    simp only [decide_eq_true_eq] at hv2
    exact ⟨v, hv1, hv2⟩
  · intro k ok hk1 hk2 hk3
    have := scanBack_after hre k hk1 hk2 ok hk3
    simp only [decide_eq_false_iff_not, Nat.not_lt] at this
    exact this
  · have hlt := advanceStart_progress offsets a0 hot hc1
    have hs1 : tsi ≤ advanceStart offsets a0 tsi - 1 := by omega
    have hs2 : advanceStart offsets a0 tsi - 1 < advanceStart offsets a0 tsi := by
      omega
    have hsl : advanceStart offsets a0 tsi - 1 < offsets.length := by
      obtain ⟨j, oj, hj1, hj2, hj3⟩ := hex
      have hsj := advanceStart_le_exceed offsets a0 hj1 hj2 hj3
      have hjl : j < offsets.length := List.get?_eq_some.mp hj2 |>.1
      omega
    have hosl : offsets.get? (advanceStart offsets a0 tsi - 1)
        = some (offsets.get ⟨advanceStart offsets a0 tsi - 1, hsl⟩) :=
      List.get?_eq_get hsl
    exact ⟨_, hosl, advanceStart_scanned offsets a0 hs1 hs2 hosl⟩
  · have hle := scanBack_le hre
    have hetei : e < tei := by
      rcases Nat.lt_or_ge e tei with h | h
      · exact h
      · have : e = tei := by omega
        subst this
        obtain ⟨v, hv1, hv2⟩ := scanBack_prop hre
        rw [hoe] at hv1
        cases hv1
        simp only [decide_eq_true_eq] at hv2
        omega
    have hel : e + 1 < offsets.length := by
      have : tei < offsets.length := List.get?_eq_some.mp hoe |>.1
      omega
    have hoel : offsets.get? (e + 1) = some (offsets.get ⟨e + 1, hel⟩) :=
      List.get?_eq_get hel
    have := scanBack_after hre (e + 1) (by omega) (by omega) _ hoel
    simp only [decide_eq_false_iff_not, Nat.not_lt] at this
    exact ⟨_, hoel, this⟩

/-- C7: for every encoder-variant feature, if the originating example has
    zero recorded answers, or if the answer character span is not fully
    contained in the context token span
    [offsets[token_start_index].start, offsets[token_end_index].end), then
    both emitted labels equal the classifier-token fallback index, and the
    call returns normally (the some constructor: no error is raised). -/
theorem c7_fallback_labels (cls : Nat) (padOnRight : Bool)
    (input_ids : List Nat) (offsets : List (Nat × Nat))
    (sequence_ids : List (Option Nat)) (answers : QAAnswers) (cls_index : Nat)
    (hcls : pyFindIdx (· == cls) input_ids = some cls_index)
    (hcase : answers.answer_start = [] ∨
      ∃ a0 as t0 ts tsi tei ots ote,
        answers.answer_start = a0 :: as ∧ answers.text = t0 :: ts ∧
        pyFindIdx (· == some (if padOnRight then 1 else 0)) sequence_ids
          = some tsi ∧
        scanBack (· == some (if padOnRight then 1 else 0)) sequence_ids
          (input_ids.length - 1) = some tei ∧
        offsets.get? tsi = some ots ∧ offsets.get? tei = some ote ∧
        ¬(ots.1 ≤ a0 ∧ a0 + t0.length ≤ ote.2)) :
    labelFeature cls padOnRight input_ids offsets sequence_ids answers
      = some ((cls_index : Int), (cls_index : Int)) := by
  rcases hcase with ha | ⟨a0, as, t0, ts, tsi, tei, ots, ote, ha, ht, hts, hte,
    hot, hoe, hfail⟩
  · unfold labelFeature
    rw [hcls]
    simp [ha]
  · unfold labelFeature
    rw [hcls]
    simp only [List.get?_eq_getElem?] at hot hoe
    simp only [Option.some_bind, ha, ht, List.isEmpty_cons, List.get?_cons_zero]
    by_cases hA : ots.1 ≤ a0
    · have hB : ¬(a0 + t0.length ≤ ote.2) := fun hb => hfail ⟨hA, hb⟩
      simp [hts, hte, hot, hoe, hA, hB]
    · simp [hts, hte, hot, hA]

/-- C7 witness: the theorem applied at a concrete feature whose answer
    starts at character 100, outside the context token span [0, 15): both
    labels equal the cls index 0 and the call returns normally. -/
theorem c7_fallback_labels_witness :
    labelFeature 101 true [101, 7, 102, 11, 12, 13, 102]
        [(0,0),(0,4),(0,0),(0,3),(4,9),(10,15),(0,0)]
        [none, some 0, none, some 1, some 1, some 1, none]
        ⟨[100], ["brown"]⟩ = some (((0 : Nat) : Int), ((0 : Nat) : Int)) :=
  c7_fallback_labels 101 true [101, 7, 102, 11, 12, 13, 102]
    [(0,0),(0,4),(0,0),(0,3),(4,9),(10,15),(0,0)]
    [none, some 0, none, some 1, some 1, some 1, none]
    ⟨[100], ["brown"]⟩ 0 (by decide)
    (Or.inr ⟨100, [], "brown", [], 3, 5, (0, 3), (10, 15), rfl, rfl,
      by decide, by decide, by decide, by decide, by decide⟩)

/-- C9: constructing the sparse retrieval engine from a corpus yields a
    passage list equal to the first-seen-order deduplication of the corpus
    texts (each distinct text exactly once, in first-seen order: no
    duplicates and the same membership as the raw text list), with the ids
    list equal to range N, so the id assigned to each surviving passage is
    its position. -/
theorem c9_corpus_dedup (tokenize_fn : String → List String)
    (wiki : List WikiDoc) :
    (initEngine tokenize_fn wiki).contexts
        = specFirstSeenDedup (wiki.map (·.text))
    ∧ ((initEngine tokenize_fn wiki).contexts).Nodup
    ∧ (∀ t, t ∈ (initEngine tokenize_fn wiki).contexts ↔ t ∈ wiki.map (·.text))
    ∧ (initEngine tokenize_fn wiki).ids
        = List.range (initEngine tokenize_fn wiki).contexts.length := by
  refine ⟨dictFromKeys_eq_spec _, ?_, ?_, rfl⟩
  · show (dictFromKeys (wiki.map (·.text))).Nodup
    rw [dictFromKeys_eq_spec]
    exact specFirstSeenDedup_nodup _
  · intro t
    show t ∈ dictFromKeys (wiki.map (·.text)) ↔ _
    rw [dictFromKeys_eq_spec]
    exact mem_specFirstSeenDedup _ t

/-- C10: on an engine whose index is built, calling retrieve with an
    argument that is neither a string nor a dataset falls through both
    isinstance branches: the call performs no retrieval and returns the
    absent value None (and raises nothing), despite the declared return
    type promising a scores/texts pair or a DataFrame. -/
theorem c10_retrieve_other_returns_none (R : BM25SparseRetrieval)
    (api : List String → List ℚ) (topk : Nat) (hbuilt : R.bm25 = some api) :
    retrieve R .other topk = .ok none := by
  unfold retrieve
  rw [hbuilt]
  rfl

/-- C10 witness: the theorem applied at the concrete built demo engine. -/
theorem c10_retrieve_other_returns_none_witness :
    retrieve demoEngine .other 5 = .ok none :=
  c10_retrieve_other_returns_none demoEngine (fun _ => [(2 : ℚ), 1]) 5 rfl

/-- C6 witness: the amended theorem applied at the demo feature, whose
    answer "brown" occupies context token 5 with a further context token
    (16,19) after it; the labels come out as (5, 5). -/
theorem c6_tight_span_labeling_witness :
    ∃ s : Nat, labelFeature 101 true demoInputIds demoOffsets demoSeqIds
          ⟨[10], ["brown"]⟩ = some ((s : Int) - 1, ((4 : Nat) : Int) + 1)
      ∧ 3 < s ∧ s < demoOffsets.length
      ∧ (∀ k ok, 3 ≤ k → k < s → demoOffsets.get? k = some ok → ok.1 ≤ 10)
      ∧ (∀ o, demoOffsets.get? s = some o → 10 < o.1)
      ∧ 4 < 6
      ∧ (∃ oe, demoOffsets.get? 4 = some oe ∧ oe.2 < 10 + "brown".length)
      ∧ (∀ k ok, 4 < k → k ≤ 6 → demoOffsets.get? k = some ok →
          10 + "brown".length ≤ ok.2)
      ∧ (∃ osl, demoOffsets.get? (s - 1) = some osl ∧ osl.1 ≤ 10)
      ∧ (∃ oel, demoOffsets.get? (4 + 1) = some oel ∧
          10 + "brown".length ≤ oel.2) :=
  c6_tight_span_labeling 101 true demoInputIds demoOffsets demoSeqIds 0 10 []
    "brown" [] 3 6 4 (0, 3) (16, 19) (by decide) (by decide) (by decide)
    (by decide) (by decide) (by decide) (by decide) (by decide)
    ⟨6, (16, 19), by decide, by decide, by decide⟩

/-- C8 counterexample: the claim states that every emitted label of either
    train sub-mode is a valid token index in [0, padded feature length).
    In the T5 sub-mode the fallback label is tokenizer.eos_token_id, a
    token ID rather than a position: with eos id 600 and a padded feature
    of 8 tokens, an unanswerable example is labelled (600, 600), and 600 is
    not below the feature length 8. -/
theorem c8_label_bounds_counterexample :
    labelFeatureT5 600 0 [9, 9, 9, 9, 9, 9, 9, 9]
        [(0,0),(0,0),(0,0),(0,0),(0,0),(0,0),(0,0),(0,0)] 3 10 ⟨[], []⟩
      = some (600, 600)
    ∧ (8 : Int) ≤ 600 :=
  ⟨by decide, by decide⟩

/-- C8 amended: whenever the encoder-variant labelling returns labels for
    a feature, both are valid token indices in [0, feature length); the
    T5-variant labelling returns either such a valid pair or the fallback
    pair (eos_token_id, eos_token_id), which is a valid index only when
    the eos token id is below the feature length (the counterexample shows
    it need not be). The feature length is the shared length of input_ids
    and its offset mapping, equal to the padded length for max_length
    padding. -/
theorem c8_label_bounds :
    (∀ (cls : Nat) (padOnRight : Bool) (input_ids : List Nat)
        (offsets : List (Nat × Nat)) (sequence_ids : List (Option Nat))
        (answers : QAAnswers) (s e : Int),
      offsets.length = input_ids.length →
      labelFeature cls padOnRight input_ids offsets sequence_ids answers
        = some (s, e) →
      0 ≤ s ∧ s < input_ids.length ∧ 0 ≤ e ∧ e < input_ids.length)
    ∧ (∀ (eos pad : Nat) (input_ids : List Nat) (offsets : List (Nat × Nat))
        (atl axl : Nat) (answers : QAAnswers) (s e : Int),
      offsets.length = input_ids.length →
      labelFeatureT5 eos pad input_ids offsets atl axl answers = some (s, e) →
      (s = (eos : Int) ∧ e = (eos : Int))
        ∨ (0 ≤ s ∧ s < input_ids.length ∧ 0 ≤ e ∧ e < input_ids.length)) := by
  constructor
  · intro cls padOnRight input_ids offsets sequence_ids answers s e hlen h
    unfold labelFeature at h
    cases hcls : pyFindIdx (· == cls) input_ids with
    | none => rw [hcls] at h; simp at h
    | some cls_index =>
      rw [hcls] at h
      simp only [Option.bind_eq_bind, Option.some_bind] at h
      have hclsb : cls_index < input_ids.length := pyFindIdx_lt_length hcls
      by_cases hemp : answers.answer_start.isEmpty
      · simp only [hemp, reduceIte, pure, Option.some.injEq, Prod.mk.injEq] at h
        obtain ⟨rfl, rfl⟩ := h
        refine ⟨by positivity, ?_, by positivity, ?_⟩ <;> exact_mod_cast hclsb
      · simp only [hemp, reduceIte] at h
        cases ha0 : answers.answer_start.get? 0 with
        | none => rw [ha0] at h; simp at h
        | some a0 =>
          rw [ha0] at h
          simp only [Option.bind_eq_bind, Option.some_bind] at h
          cases ht0 : answers.text.get? 0 with
          | none => rw [ht0] at h; simp at h
          | some t0 =>
            rw [ht0] at h
            simp only [Option.bind_eq_bind, Option.some_bind] at h
            cases hts : pyFindIdx (· == some (if padOnRight then 1 else 0))
                sequence_ids with
            | none => rw [hts] at h; simp at h
            | some tsi =>
              rw [hts] at h
              simp only [Option.bind_eq_bind, Option.some_bind] at h
              cases hte : scanBack (· == some (if padOnRight then 1 else 0))
                  sequence_ids (input_ids.length - 1) with
              | none => rw [hte] at h; simp at h
              | some tei =>
                rw [hte] at h
                simp only [Option.bind_eq_bind, Option.some_bind] at h
                cases hot : offsets.get? tsi with
                | none => rw [hot] at h; simp at h
                | some ots =>
                  rw [hot] at h
                  simp only [Option.bind_eq_bind, Option.some_bind] at h
                  by_cases hA : ots.1 ≤ a0
                  · rw [if_pos hA] at h
                    cases hoe : offsets.get? tei with
                    | none => rw [hoe] at h; simp at h
                    | some ote =>
                      rw [hoe] at h
                      simp only [Option.bind_eq_bind, Option.some_bind] at h
                      by_cases hB : a0 + t0.length ≤ ote.2
                      · rw [if_pos hB] at h
                        cases hre : scanBack
                            (fun o => decide (o.2 < a0 + t0.length))
                            offsets tei with
                        | none => rw [hre] at h; simp at h
                        | some eb =>
                          rw [hre] at h
                          simp only [Option.bind_eq_bind, Option.some_bind,
                            pure, Option.some.injEq, Prod.mk.injEq] at h
                          obtain ⟨rfl, rfl⟩ := h
                          have htsil : tsi < offsets.length :=
                            List.get?_eq_some.mp hot |>.1
                          have hteil : tei < offsets.length :=
                            List.get?_eq_some.mp hoe |>.1
                          have hadv1 : tsi + 1 ≤ advanceStart offsets a0 tsi :=
                            advanceStart_progress offsets a0 hot hA
                          have hadv2 : advanceStart offsets a0 tsi
                              ≤ offsets.length :=
                            advanceStart_le_length offsets a0 (by omega)
                          have hebtei : eb < tei := by
                            have hle := scanBack_le hre
                            rcases Nat.lt_or_ge eb tei with hlt | hge
                            · exact hlt
                            · have heq : eb = tei := by omega
                              subst heq
                              obtain ⟨v, hv1, hv2⟩ := scanBack_prop hre
                              rw [hoe] at hv1
                              cases hv1
                              simp only [decide_eq_true_eq] at hv2
                              omega
                          refine ⟨by omega, by omega, by omega, by omega⟩
                      · rw [if_neg hB] at h
                        simp only [pure, Option.some.injEq, Prod.mk.injEq] at h
                        obtain ⟨rfl, rfl⟩ := h
                        refine ⟨by positivity, ?_, by positivity, ?_⟩ <;>
                          exact_mod_cast hclsb
                  · rw [if_neg hA] at h
                    simp only [pure, Option.some.injEq, Prod.mk.injEq] at h
                    obtain ⟨rfl, rfl⟩ := h
                    refine ⟨by positivity, ?_, by positivity, ?_⟩ <;>
                      exact_mod_cast hclsb
  · intro eos pad input_ids offsets atl axl answers s e hlen h
    unfold labelFeatureT5 at h
    by_cases hemp : answers.answer_start.isEmpty
    · simp only [hemp, reduceIte, pure, Option.some.injEq, Prod.mk.injEq] at h
      obtain ⟨rfl, rfl⟩ := h
      exact .inl ⟨rfl, rfl⟩
    · simp only [hemp, reduceIte] at h
      cases ha0 : answers.answer_start.get? 0 with
      | none => rw [ha0] at h; simp at h
      | some a0 =>
        rw [ha0] at h
        simp only [Option.bind_eq_bind, Option.some_bind] at h
        cases ht0 : answers.text.get? 0 with
        | none => rw [ht0] at h; simp at h
        | some t0 =>
          rw [ht0] at h
          simp only [Option.bind_eq_bind, Option.some_bind] at h
          cases hte : scanBack (fun v => decide (v ≠ pad ∧ v ≠ eos)) input_ids
              (input_ids.length - 1) with
          | none => rw [hte] at h; simp at h
          | some tei =>
            rw [hte] at h
            simp only [Option.bind_eq_bind, Option.some_bind] at h
            cases hot : offsets.get? atl with
            | none => rw [hot] at h; simp at h
            | some ots =>
              rw [hot] at h
              simp only [Option.bind_eq_bind, Option.some_bind] at h
              by_cases hA : ots.1 ≤ a0 + axl
              · rw [if_pos hA] at h
                cases hoe : offsets.get? tei with
                | none => rw [hoe] at h; simp at h
                | some ote =>
                  rw [hoe] at h
                  simp only [Option.bind_eq_bind, Option.some_bind] at h
                  by_cases hB : a0 + axl + t0.length + 1 ≤ ote.2
                  · rw [if_pos hB] at h
                    cases hre : scanBack
                        (fun o => decide (o.2 < a0 + axl + t0.length + 1))
                        offsets tei with
                    | none => rw [hre] at h; simp at h
                    | some eb =>
                      rw [hre] at h
                      simp only [Option.bind_eq_bind, Option.some_bind, pure,
                        Option.some.injEq, Prod.mk.injEq] at h
                      obtain ⟨rfl, rfl⟩ := h
                      have hatl : atl < offsets.length :=
                        List.get?_eq_some.mp hot |>.1
                      have hteil : tei < offsets.length :=
                        List.get?_eq_some.mp hoe |>.1
                      have hadv1 : atl + 1 ≤ advanceStart offsets (a0 + axl) atl :=
                        advanceStart_progress offsets (a0 + axl) hot hA
                      have hadv2 : advanceStart offsets (a0 + axl) atl
                          ≤ offsets.length :=
                        advanceStart_le_length offsets (a0 + axl) (by omega)
                      have hebtei : eb < tei := by
                        have hle := scanBack_le hre
                        rcases Nat.lt_or_ge eb tei with hlt | hge
                        · exact hlt
                        · have heq : eb = tei := by omega
                          subst heq
                          obtain ⟨v, hv1, hv2⟩ := scanBack_prop hre
                          rw [hoe] at hv1
                          cases hv1
                          simp only [decide_eq_true_eq] at hv2
                          omega
                      exact .inr ⟨by omega, by omega, by omega, by omega⟩
                  · rw [if_neg hB] at h
                    simp only [pure, Option.some.injEq, Prod.mk.injEq] at h
                    obtain ⟨rfl, rfl⟩ := h
                    exact .inl ⟨rfl, rfl⟩
              · rw [if_neg hA] at h
                simp only [pure, Option.some.injEq, Prod.mk.injEq] at h
                obtain ⟨rfl, rfl⟩ := h
                exact .inl ⟨rfl, rfl⟩

/-- C8 witness: both halves of the amended theorem applied at concrete
    features; the encoder demo feature gets the in-range labels (5, 5),
    and the unanswerable T5 feature gets the fallback pair (600, 600). -/
theorem c8_label_bounds_witness :
    (0 ≤ (5 : Int) ∧ (5 : Int) < demoInputIds.length ∧ 0 ≤ (5 : Int)
      ∧ (5 : Int) < demoInputIds.length)
    ∧ (((600 : Int) = ((600 : Nat) : Int) ∧ (600 : Int) = ((600 : Nat) : Int))
      ∨ (0 ≤ (600 : Int) ∧ (600 : Int) < (8 : Nat) ∧ 0 ≤ (600 : Int)
          ∧ (600 : Int) < (8 : Nat))) :=
  ⟨c8_label_bounds.1 101 true demoInputIds demoOffsets demoSeqIds
      ⟨[10], ["brown"]⟩ 5 5 rfl (by decide),
   c8_label_bounds.2 600 0 [9, 9, 9, 9, 9, 9, 9, 9]
      [(0,0),(0,0),(0,0),(0,0),(0,0),(0,0),(0,0),(0,0)] 3 10 ⟨[], []⟩
      600 600 rfl (by decide)⟩

end QAPipeline
